import Mathlib

/-!
Verification development for the ACE adaptive CSS engine (ace-ai1.js).

The JavaScript source is shallowly embedded below.  JavaScript numbers are
modelled by `JsNum`: either an exact rational (`num q`) or `nan`.  All of the
arithmetic the engine performs on well-formed inputs is exact rational
arithmetic, so `ℚ` is a faithful model of it; `nan` captures the propagation
of `NaN` (and of `undefined` operands, which behave as `NaN` in arithmetic)
through the color pipeline on malformed inputs.  Strings are manipulated as
`List Char` internally and wrapped into `String` at the interfaces.

Modelling notes (cases no claim exercises):
* `jdiv` returns `nan` on division by zero (JavaScript would produce an
  infinity); the only divisor used in the color pipeline is the constant 1000.
* `jsToString16Chars` (JavaScript `Number.prototype.toString(16)`) is left
  undefined (`Option.none`) on non-integer rationals; every claim that reaches
  it does so with integer or `NaN` channel values.
* `jsNumToDecChars` (JavaScript number-to-string coercion) renders finite
  decimals; `parseFloat` results are always finite decimals or `NaN`.
* In the rank-fusion arithmetic (plain `ℚ`), division by zero yields 0 in
  Lean; the claims only evaluate those expressions with a positive
  denominator, or on an empty map.
-/

/-- Hexadecimal digit character (lowercase), as produced by `toString(16)`. -/
def hexDigit (n : ℕ) : Char := Char.ofNat (if n < 10 then 48 + n else 87 + n)

/-- Hexadecimal digit character (uppercase), for the spec-side `#RRGGBB` form. -/
def hexDigitU (n : ℕ) : Char := Char.ofNat (if n < 10 then 48 + n else 55 + n)

/-- Is `c` a hexadecimal digit accepted by `parseInt(s, 16)`. -/
def isHexDigitChar (c : Char) : Bool :=
  (decide (48 ≤ c.toNat) && decide (c.toNat ≤ 57)) ||
  (decide (97 ≤ c.toNat) && decide (c.toNat ≤ 102)) ||
  (decide (65 ≤ c.toNat) && decide (c.toNat ≤ 70))

/-- Numeric value of a hexadecimal digit character. -/
def hexCharVal (c : Char) : ℕ :=
  if 48 ≤ c.toNat ∧ c.toNat ≤ 57 then c.toNat - 48
  else if 97 ≤ c.toNat then c.toNat - 87
  else c.toNat - 55

/-- Is `c` a decimal digit. -/
def isDigitChar (c : Char) : Bool := decide (48 ≤ c.toNat) && decide (c.toNat ≤ 57)

/-- A JavaScript number: an exact rational or `NaN`.  `undefined` operands of
arithmetic also behave as `NaN`, so they are folded into `nan` as well. -/
inductive JsNum where
  | num (q : ℚ) : JsNum
  | nan : JsNum
deriving DecidableEq

open JsNum

/-- JavaScript addition (also models `undefined + x`). -/
def jadd : JsNum → JsNum → JsNum
  | num a, num b => num (a + b)
  | _, _ => nan

/-- JavaScript subtraction. -/
def jsub : JsNum → JsNum → JsNum
  | num a, num b => num (a - b)
  | _, _ => nan

/-- JavaScript multiplication. -/
def jmul : JsNum → JsNum → JsNum
  | num a, num b => num (a * b)
  | _, _ => nan

/-- JavaScript division (division by zero unmodelled, see header). -/
def jdiv : JsNum → JsNum → JsNum
  | num a, num b => if b = 0 then nan else num (a / b)
  | _, _ => nan

/-- Truncation toward zero, as used by the JavaScript `%` operator. -/
def ratTrunc (q : ℚ) : ℤ := if q < 0 then -(Int.floor (-q)) else Int.floor q

/-- The JavaScript remainder `a % b` on rationals: `a - b * trunc (a / b)`. -/
def jsRem (a b : ℚ) : ℚ := a - b * ((ratTrunc (a / b) : ℤ) : ℚ)

/-- JavaScript `x % m` for a rational literal modulus `m`. -/
def jmod : JsNum → ℚ → JsNum
  | num a, m => num (jsRem a m)
  | nan, _ => nan

/-- JavaScript `<` (false whenever an operand is `NaN`). -/
def jlt : JsNum → JsNum → Bool
  | num a, num b => decide (a < b)
  | _, _ => false

/-- JavaScript `>` (false whenever an operand is `NaN`). -/
def jgt (a b : JsNum) : Bool := jlt b a

/-- JavaScript `Math.floor`. -/
def jfloor : JsNum → JsNum
  | num a => num ((Int.floor a : ℤ) : ℚ)
  | nan => nan

/-- Array access `rgb[i]`: a missing index is `undefined`, which behaves as
`NaN` in all the arithmetic it feeds into. -/
def channelGet (rgb : List JsNum) (i : ℕ) : JsNum := (rgb.get? i).getD nan

/-- fn.rgbBrightness: `(rgb[0]*299 + rgb[1]*587 + rgb[2]*114) / 1000`. -/
def rgbBrightness (rgb : List JsNum) : JsNum :=
  jdiv (jadd (jadd (jmul (channelGet rgb 0) (num 299))
                   (jmul (channelGet rgb 1) (num 587)))
             (jmul (channelGet rgb 2) (num 114)))
       (num 1000)

/-- fn.cssDimensionAdapt: `value > 0 ? value * (1 + weight) : (1 + weight)`.
Note `NaN > 0` is false, so a `NaN` value yields the plain multiplier. -/
def cssDimensionAdapt (value : JsNum) (weight : ℚ) : JsNum :=
  if jgt value (num 0) then jmul value (num (1 + weight)) else num (1 + weight)

/-- Clamp below at 0: `if (x < 0) x = 0` (a `NaN` stays `NaN`). -/
def clampLo0 (x : JsNum) : JsNum := if jlt x (num 0) then num 0 else x

/-- Clamp above at 255: `if (x > 255) x = 255` (a `NaN` stays `NaN`). -/
def clampHi255 (x : JsNum) : JsNum := if jgt x (num 255) then num 255 else x

/-- fn.cssColorAdapt, lines 262-278: the per-channel adjustment, before the
hex re-encoding of the final line. -/
def cssColorAdaptChannels (rgb : List JsNum) (weight : ℚ) : JsNum × JsNum × JsNum :=
  let oldBright := rgbBrightness rgb
  let newBright := cssDimensionAdapt oldBright weight
  let csum := jadd (jadd (channelGet rgb 0) (channelGet rgb 1)) (channelGet rgb 2)
  if jgt oldBright newBright then
    let d := jmod (jsub csum newBright) 255
    (clampLo0 (jsub (channelGet rgb 0) d),
     clampLo0 (jsub (channelGet rgb 1) d),
     clampLo0 (jsub (channelGet rgb 2) d))
  else
    let d := jmod (jsub newBright oldBright) 255
    (clampHi255 (jadd (channelGet rgb 0) d),
     clampHi255 (jadd (channelGet rgb 1) d),
     clampHi255 (jadd (channelGet rgb 2) d))

/-- Hexadecimal digits of `n`, most significant first, with explicit fuel
(the fuel `n + 1` used below always suffices). -/
def natToHexF : ℕ → ℕ → List Char
  | 0, _ => []
  | fuel + 1, n => if n < 16 then [hexDigit n] else natToHexF fuel (n / 16) ++ [hexDigit (n % 16)]

/-- JavaScript `n.toString(16)` for a natural number. -/
def natToHexLower (n : ℕ) : List Char := natToHexF (n + 1) n

/-- JavaScript `x.toString(16)`: `"NaN"` on `NaN`, hexadecimal digits on
integers; left unmodelled on non-integer rationals (see header). -/
def jsToString16Chars : JsNum → Option (List Char)
  | nan => some (String.toList ("NaN"))
  | num q =>
    if q.den = 1 then
      some (if q.num < 0 then Char.ofNat 45 :: natToHexLower q.num.natAbs
            else natToHexLower q.num.natAbs)
    else Option.none

/-- fn.rgb2hex per-channel step: `if (r.length < 2) r += r` — the single-digit
case DOUBLES the digit instead of zero-padding it. -/
def doubleShort (l : List Char) : List Char := if l.length < 2 then l ++ l else l

/-- fn.rgb2hex: concatenation of the three channel strings. -/
def rgb2hexChars (r g b : JsNum) : Option (List Char) :=
  (jsToString16Chars r).bind (fun rs =>
  (jsToString16Chars g).bind (fun gs =>
  (jsToString16Chars b).map (fun bs => doubleShort rs ++ doubleShort gs ++ doubleShort bs)))

/-- Drop leading spaces (the whitespace trimming of `parseInt`/`parseFloat`). -/
def skipSpaces : List Char → List Char
  | [] => []
  | c :: rest => if c = Char.ofNat 32 then skipSpaces rest else c :: rest

/-- Accumulate the value of a maximal run of hexadecimal digits. -/
def hexGo : List Char → ℕ → ℕ
  | [], acc => acc
  | c :: rest, acc => if isHexDigitChar c then hexGo rest (16 * acc + hexCharVal c) else acc

/-- JavaScript `parseInt(s, 16)` after whitespace trimming: optional sign,
then a maximal hexadecimal-digit run; `NaN` when no digit is found. -/
def parseIntHexCore : List Char → JsNum
  | [] => nan
  | c :: rest =>
    if c = Char.ofNat 45 then
      match rest with
      | d :: _ => if isHexDigitChar d then num (-((hexGo rest 0 : ℕ) : ℚ)) else nan
      | [] => nan
    else if c = Char.ofNat 43 then
      match rest with
      | d :: _ => if isHexDigitChar d then num ((hexGo rest 0 : ℕ) : ℚ) else nan
      | [] => nan
    else if isHexDigitChar c then num ((hexGo (c :: rest) 0 : ℕ) : ℚ)
    else nan

/-- JavaScript `parseInt(s, 16)`. -/
def parseIntHexChars (l : List Char) : JsNum := parseIntHexCore (skipSpaces l)

/-- Accumulate the value of a maximal run of decimal digits. -/
def decGo : List Char → ℕ → ℕ
  | [], acc => acc
  | c :: rest, acc => if isDigitChar c then decGo rest (10 * acc + (c.toNat - 48)) else acc

/-- JavaScript `parseInt(s)` (decimal) after whitespace trimming: optional
sign, then a maximal decimal-digit run; `NaN` when no digit is found. -/
def parseIntDecCore : List Char → JsNum
  | [] => nan
  | c :: rest =>
    if c = Char.ofNat 45 then
      match rest with
      | d :: _ => if isDigitChar d then num (-((decGo rest 0 : ℕ) : ℚ)) else nan
      | [] => nan
    else if c = Char.ofNat 43 then
      match rest with
      | d :: _ => if isDigitChar d then num ((decGo rest 0 : ℕ) : ℚ) else nan
      | [] => nan
    else if isDigitChar c then num ((decGo (c :: rest) 0 : ℕ) : ℚ)
    else nan

/-- JavaScript `parseInt(s)` (decimal). -/
def parseIntDecChars (l : List Char) : JsNum := parseIntDecCore (skipSpaces l)

/-- fn.rgb2dec: `parseInt(rgb2hex(rgb), 16)`. -/
def rgb2decJs (r g b : JsNum) : Option JsNum := (rgb2hexChars r g b).map parseIntHexChars

/-- Zero-pad a digit string on the left to length 6 (the loop in fn.cssColor). -/
def padChars6 (l : List Char) : List Char := List.replicate (6 - l.length) (Char.ofNat 48) ++ l

/-- fn.cssColor: `"#" + zeropad6(Math.floor(num).toString(16)).toUpperCase()`. -/
def cssColorChars (x : JsNum) : Option (List Char) :=
  (jsToString16Chars (jfloor x)).map (fun str => Char.ofNat 35 :: (padChars6 str).map Char.toUpper)

/-- The re-encoding tail of fn.cssColorAdapt: `cssColor(rgb2dec([r, g, b]))`. -/
def encodeRGB (r g b : JsNum) : Option String :=
  (rgb2decJs r g b).bind (fun d => (cssColorChars d).map String.mk)

/-- fn.cssColorAdapt: adjust the channels, then re-encode. -/
def cssColorAdapt (rgb : List JsNum) (weight : ℚ) : Option String :=
  let t := cssColorAdaptChannels rgb weight
  encodeRGB t.1 t.2.1 t.2.2

/-- Does the prefix list `p` lead the list `s` (JavaScript-style match test). -/
def startsWithChars : List Char → List Char → Bool
  | [], _ => true
  | _ :: _, [] => false
  | p :: ps, s :: ss => p == s && startsWithChars ps ss

/-- JavaScript `String.prototype.split(sep)` worker, fuelled by the length of
the subject string (which always suffices). -/
def splitGoF : ℕ → List Char → List Char → List Char → List (List Char)
  | 0, s, _, cur => [cur.reverse ++ s]
  | fuel + 1, s, sep, cur =>
    match s with
    | [] => [cur.reverse]
    | c :: rest =>
      if startsWithChars sep (c :: rest) then
        cur.reverse :: splitGoF fuel (rest.drop (sep.length - 1)) sep []
      else splitGoF fuel rest sep (c :: cur)

/-- JavaScript `s.split(sep)` for a non-empty separator (the engine never
splits on an empty separator). -/
def splitChars (s sep : List Char) : List (List Char) :=
  if sep.isEmpty then [s] else splitGoF s.length s sep []

/-- JavaScript `s.indexOf(c)`: index of the first occurrence, or `-1`. -/
def jsIndexOf (l : List Char) (c : Char) : ℤ :=
  match l.findIdx? (· == c) with
  | some i => (i : ℤ)
  | Option.none => -1

/-- JavaScript `s.substring(a, b)`: clamp both ends into range, swap them if
needed, and slice. -/
def jsSubstringChars (l : List Char) (a b : ℤ) : List Char :=
  let n : ℤ := l.length
  let a2 := min (max a 0) n
  let b2 := min (max b 0) n
  (l.take (max a2 b2).toNat).drop (min a2 b2).toNat

/-- JavaScript `s.substr(start, len)` for natural arguments. -/
def jsSubstrChars (l : List Char) (start len : ℕ) : List Char := (l.drop start).take len

/-- fn.parseColor: `rgb(R,G,B)` is split on commas and each of the first three
pieces goes through `parseInt`; `#RGB`/`#RRGGBB` is cut into three groups (the
shorthand doubles each digit); anything else — a bad definition or a plain
color name such as `pink` — yields the empty array. -/
def parseColor (color : String) : List JsNum :=
  match color.toList with
  | [] => []
  | c :: rest =>
    let cl := c :: rest
    if c = Char.ofNat 114 then
      let f := jsIndexOf cl (Char.ofNat 40)
      let lp := jsIndexOf cl (Char.ofNat 41)
      let inner := jsSubstringChars cl (f + 1) lp
      let parts := splitChars inner [Char.ofNat 44]
      (List.range 3).map (fun j =>
        match parts.get? j with
        | some p => parseIntDecChars p
        | Option.none => nan)
    else if c = Char.ofNat 35 then
      let offset := if cl.length < 6 then 1 else 2
      (List.range 3).map (fun i => parseIntHexChars (jsSubstrChars cl (1 + i * offset) offset))
    else []

/-- JavaScript `parseFloat`: skip whitespace, optional sign, decimal digits
with an optional fractional part; `NaN` when no digit is found.  (Exponent
forms do not occur in computed style values and are not modelled.) -/
def parseFloatChars (l : List Char) : JsNum :=
  let l1 := skipSpaces l
  let signed : ℚ × List Char :=
    match l1 with
    | c :: rest =>
      if c = Char.ofNat 45 then (-1, rest)
      else if c = Char.ofNat 43 then (1, rest)
      else (1, c :: rest)
    | [] => (1, [])
  let ip := signed.2.takeWhile isDigitChar
  let rest2 := signed.2.drop ip.length
  match rest2 with
  | c :: r2 =>
    if c = Char.ofNat 46 then
      let fp := r2.takeWhile isDigitChar
      if ip.isEmpty && fp.isEmpty then nan
      else num (signed.1 * (((decGo ip 0 : ℕ) : ℚ) + ((decGo fp 0 : ℕ) : ℚ) / (10 : ℚ) ^ fp.length))
    else if ip.isEmpty then nan else num (signed.1 * ((decGo ip 0 : ℕ) : ℚ))
  | [] => if ip.isEmpty then nan else num (signed.1 * ((decGo ip 0 : ℕ) : ℚ))

/-- Decimal digits of `n`, most significant first, with explicit fuel. -/
def natToDecF : ℕ → ℕ → List Char
  | 0, _ => []
  | fuel + 1, n =>
    if n < 10 then [Char.ofNat (48 + n)]
    else natToDecF fuel (n / 10) ++ [Char.ofNat (48 + n % 10)]

/-- Decimal rendering of a natural number. -/
def natToDec (n : ℕ) : List Char := natToDecF (n + 1) n

/-- Multiplicity of the prime `p` in `n`, fuelled. -/
def multOf (p : ℕ) : ℕ → ℕ → ℕ
  | 0, _ => 0
  | fuel + 1, n => if 2 ≤ p ∧ n ≠ 0 ∧ n % p = 0 then 1 + multOf p fuel (n / p) else 0

/-- JavaScript number-to-string coercion: `"NaN"` on `NaN`, plain decimal
digits on integers, and the finite decimal expansion when the denominator is
of the form `2^a * 5^b` (which covers every `parseFloat` result); other
rationals are unreachable here and left unmodelled. -/
def jsNumToDecChars : JsNum → Option (List Char)
  | nan => some (String.toList ("NaN"))
  | num q =>
    if q.den = 1 then
      some ((if q.num < 0 then [Char.ofNat 45] else []) ++ natToDec q.num.natAbs)
    else
      let a2 := multOf 2 q.den q.den
      let a5 := multOf 5 q.den q.den
      if 2 ^ a2 * 5 ^ a5 = q.den then
        let k := max a2 a5
        let scaled := q.num.natAbs * 10 ^ k / q.den
        let ds := natToDec scaled
        let ds2 := List.replicate ((k + 1) - ds.length) (Char.ofNat 48) ++ ds
        some ((if q.num < 0 then [Char.ofNat 45] else []) ++
              ds2.take (ds2.length - k) ++ [Char.ofNat 46] ++ ds2.drop (ds2.length - k))
      else Option.none

/-- fn.parseDimension: `value = parseFloat(dim); parts = dim.split(value);
return { value, unit: parts[1] }`.  A missing `parts[1]` is `undefined`,
modelled as `Option.none`. -/
def parseDimension (dim : String) : JsNum × Option String :=
  let value := parseFloatChars dim.toList
  match jsNumToDecChars value with
  | some vs => (value, ((splitChars dim.toList vs).map String.mk).get? 1)
  | Option.none => (value, Option.none)

/-- The dimension branch of fn.restyle:
`cssDimensionAdapt(dim.value, weight) + dim.unit` (string concatenation;
concatenating `undefined` appends the text `"undefined"`). -/
def adaptDimensionValue (dim : String) (weight : ℚ) : Option String :=
  let p := parseDimension dim
  (jsNumToDecChars (cssDimensionAdapt p.1 weight)).map
    (fun vs => String.mk vs ++ p.2.getD ("undefined"))

/-- Substring test, as the regular expression test `/pat/.test(s)`. -/
def hasSubChars : List Char → List Char → Bool
  | [], pat => pat.isEmpty
  | c :: rest, pat => startsWithChars pat (c :: rest) || hasSubChars rest pat

/-- The `/color/.test(cssProp)` test. -/
def strContains (s pat : String) : Bool := hasSubChars s.toList pat.toList

/-- The `/[0-9]+/.test(cssValue)` test. -/
def hasDigitChar (s : String) : Bool := s.toList.any isDigitChar

/-- fn.restyle at the value level: the new value written for a property, or
`Option.none` when nothing is written (inaccessible/empty current value).
Color-matching properties go through `parseColor`/`cssColorAdapt`; values
containing a digit go through the dimension branch; anything else is written
back unchanged. -/
def restyleValue (cssProp cssValue : String) (weight : ℚ) : Option String :=
  if cssValue = "" then Option.none
  else if strContains cssProp ("color") then cssColorAdapt (parseColor cssValue) weight
  else if hasDigitChar cssValue then adaptDimensionValue cssValue weight
  else some cssValue

/-- First-match association-list lookup (JavaScript object property read). -/
def alookup {α : Type} : List (String × α) → String → Option α
  | [], _ => Option.none
  | p :: rest, k => if p.1 = k then some p.2 else alookup rest k

/-- The normalization denominator of fn.fuseRank: the sum of the weights of
all configured event types. -/
def prioritySum (prios : List (String × ℚ)) : ℚ := (prios.map Prod.snd).sum

/-- fn.sigmoid stripped of the final `sinh`: `value * (multiplier || 1)`.
The source applies `fn.sinh` to this; theorems state that via `Real.sinh`. -/
def sigmoidArg (value : ℚ) (n : ℕ) : ℚ := value * (if n = 0 then 1 else (n : ℕ))

/-- Per-element body of fn.fuseRank: the weighted mean accumulated over the
element's event entries (a lookup of an unconfigured event type makes the
whole mean `NaN`, modelled by `Option.none`), then `sigmoid(mean/evCount, n)`
where `n` is the number of entries. -/
def fuseElem (evts : List (String × ℕ)) (prios : List (String × ℚ)) (evCount : ℕ) : Option ℚ :=
  let S := prioritySum prios
  (evts.foldl
      (fun acc p => acc.bind (fun m => (alookup prios p.1).map (fun w => m + (p.2 : ℚ) * (w / S))))
      (some 0)).map
    (fun mean => sigmoidArg (mean / (evCount : ℕ)) evts.length)

/-- fn.fuseRank: map every tracked element to its fused value. -/
def fuseRank (rank : List (String × List (String × ℕ))) (prios : List (String × ℚ))
    (evCount : ℕ) : List (String × Option ℚ) :=
  rank.map (fun e => (e.1, fuseElem e.2 prios evCount))

/-- fn.diffRank: iterate over the new rank; subtract the old value only when
the old rank exists and its entry is truthy (present and non-zero). -/
def diffRank (newRank : List (String × ℚ)) (oldRank : Option (List (String × ℚ))) :
    List (String × ℚ) :=
  newRank.map (fun e =>
    match oldRank with
    | some old =>
      match alookup old e.1 with
      | some w => if w ≠ 0 then (e.1, e.2 - w) else (e.1, e.2)
      | Option.none => (e.1, e.2)
    | Option.none => (e.1, e.2))

/-- Increment one event-type counter inside an element's sub-map
(`if (!evRank[elem][type]) evRank[elem][type] = 0; evRank[elem][type]++`). -/
def bumpEvt : List (String × ℕ) → String → List (String × ℕ)
  | [], ty => [(ty, 1)]
  | p :: rest, ty => if p.1 = ty then (p.1, p.2 + 1) :: rest else p :: bumpEvt rest ty

/-- Ensure the element's sub-map exists and bump the event-type counter in it. -/
def bumpElem : List (String × List (String × ℕ)) → String → String →
    List (String × List (String × ℕ))
  | [], elem, ty => [(elem, bumpEvt [] ty)]
  | p :: rest, elem, ty =>
    if p.1 = elem then (p.1, bumpEvt p.2 ty) :: rest else p :: bumpElem rest elem ty

/-- The session-tracking state: `evRank` and `evCount` of the source. -/
structure TrackState where
  evRank : List (String × List (String × ℕ))
  evCount : ℕ
deriving DecidableEq

/-- The state at page load: empty rank, zero count. -/
def initState : TrackState := ⟨[], 0⟩

/-- fn.updateRank for an already-resolved element path: bump the nested
counter and the session-wide total. -/
def updateRank (st : TrackState) (elem ty : String) : TrackState :=
  ⟨bumpElem st.evRank elem ty, st.evCount + 1⟩

/-- The state after a session that observed the given (path, event-type)
interaction samples in order. -/
def runTrace (tr : List (String × String)) : TrackState :=
  tr.foldl (fun st p => updateRank st p.1 p.2) initState

/-- Sum of every nested per-element per-event count. -/
def totalCount (st : TrackState) : ℕ :=
  (st.evRank.map (fun e => (e.2.map Prod.snd).sum)).sum

/-- The nested count read for a (path, event-type) pair, defaulting to 0. -/
def countOf (st : TrackState) (elem ty : String) : ℕ :=
  (alookup ((alookup st.evRank elem).getD []) ty).getD 0

/-- A DOM node for the xpath component: an element with a tag name, an
optional id attribute and children, or a text node. -/
inductive DomNode where
  | elemN (tag : String) (idAttr : Option String) (children : List DomNode) : DomNode
  | textN : DomNode

/-- Is the node a text node (`nodeType == 3`). -/
def isTextNode : DomNode → Bool
  | DomNode.textN => true
  | _ => false

/-- The child list of a node. -/
def childrenOf : DomNode → List DomNode
  | DomNode.elemN _ _ cs => cs
  | DomNode.textN => []

/-- Walk into a node along a child-index path. -/
def fetchIn (n : DomNode) : List ℕ → Option DomNode
  | [] => some n
  | i :: rest => ((childrenOf n).get? i).bind (fun c => fetchIn c rest)

/-- Resolve a child-index path against the document's node forest.  The empty
path denotes the document itself, which is not an element. -/
def fetchNode (doc : List DomNode) (p : List ℕ) : Option DomNode :=
  match p with
  | [] => Option.none
  | i :: rest => (doc.get? i).bind (fun n => fetchIn n rest)

/-- `node.hasAttribute("id")` (elements only). -/
def hasIdAttr : DomNode → Bool
  | DomNode.elemN _ (some _) _ => true
  | _ => false

/-- The tag name of an element node. -/
def nodeTag : DomNode → Option String
  | DomNode.elemN t _ _ => some t
  | DomNode.textN => Option.none

/-- The id attribute of an element node. -/
def nodeId : DomNode → Option String
  | DomNode.elemN _ i _ => i
  | DomNode.textN => Option.none

/-- xpath.getNodePath: climb from the node toward the document, prepending
each ancestor, and stop early at the first element bearing an id attribute.
Fuelled by the path length, which always suffices. -/
def nodePathF : ℕ → List DomNode → List ℕ → List (List ℕ)
  | 0, _, _ => []
  | fuel + 1, doc, p =>
    match p with
    | [] => []
    | _ :: _ =>
      match fetchNode doc p with
      | Option.none => []
      | some n =>
        if hasIdAttr n then [p] else nodePathF fuel doc p.dropLast ++ [p]

/-- xpath.getNodePath on a path-addressed node. -/
def getNodePath (doc : List DomNode) (p : List ℕ) : List (List ℕ) :=
  nodePathF p.length doc p

/-- The children of the parent of the node at `p` (the document's forest when
the node is top-level). -/
def siblingsOf (doc : List DomNode) (p : List ℕ) : List DomNode :=
  match p.dropLast with
  | [] => doc
  | pp => ((fetchNode doc pp).map childrenOf).getD []

/-- xpath.getNodeIndex: the 1-based position among same-tag element siblings,
or `none` when the node is the only child with its tag. -/
def getNodeIndexRef (doc : List DomNode) (p : List ℕ) : Option ℕ :=
  match fetchNode doc p with
  | some (DomNode.elemN tag _ _) =>
    match p.getLast? with
    | Option.none => Option.none
    | some myIdx =>
      let hits :=
        ((siblingsOf doc p).enum.filter (fun q => nodeTag q.2 == some tag)).map Prod.fst
      if hits = [myIdx] then Option.none
      else ((hits.findIdx? (· == myIdx)).map (· + 1))
  | _ => Option.none

/-- xpath.getTextNodeIndex: the 1-based position among sibling text nodes, or
`none` when the node is the only text child. -/
def getTextNodeIndexRef (doc : List DomNode) (p : List ℕ) : Option ℕ :=
  match fetchNode doc p with
  | some DomNode.textN =>
    match p.getLast? with
    | Option.none => Option.none
    | some myIdx =>
      let hits :=
        ((siblingsOf doc p).enum.filter (fun q => isTextNode q.2)).map Prod.fst
      if hits = [myIdx] then Option.none
      else ((hits.findIdx? (· == myIdx)).map (· + 1))
  | _ => Option.none

/-- The bracketed 1-based index suffix of a path segment. -/
def indexSuffix : Option ℕ → List Char
  | some ix => Char.ofNat 91 :: natToDec ix ++ [Char.ofNat 93]
  | Option.none => []

/-- One path segment of xpath.getXPath. -/
def xpathSegment (isHtml : Bool) (doc : List DomNode) (pos : ℕ) (p : List ℕ) : List Char :=
  match fetchNode doc p with
  | some (DomNode.elemN tag idA _) =>
    if pos = 0 ∧ idA.isSome then
      [Char.ofNat 47, Char.ofNat 42, Char.ofNat 91, Char.ofNat 64, Char.ofNat 105,
       Char.ofNat 100, Char.ofNat 61, Char.ofNat 39] ++
        (idA.getD "").toList ++ [Char.ofNat 39, Char.ofNat 93]
    else
      (if isHtml then tag.toList.map Char.toLower else tag.toList) ++
        indexSuffix (getNodeIndexRef doc p)
  | some DomNode.textN => String.toList ("text()") ++ indexSuffix (getTextNodeIndexRef doc p)
  | Option.none => []

/-- xpath.getXPath: join the segments of the climbed node path with slashes
under a leading slash. -/
def getXPath (isHtml : Bool) (doc : List DomNode) (p : List ℕ) : String :=
  let np := getNodePath doc p
  let segs := np.enum.map (fun iq => xpathSegment isHtml doc iq.1 iq.2)
  String.mk (Char.ofNat 47 :: List.intercalate [Char.ofNat 47] segs)

/-- Fixed-width big-endian hexadecimal digit list of a natural number
(`hexFixed k n` is the last `k` hex digits of `n`, zero-padded). -/
def hexFixed : ℕ → ℕ → List Char
  | 0, _ => []
  | k + 1, n => hexFixed k (n / 16) ++ [hexDigit (n % 16)]

/-- The channel value that fn.rgb2hex actually encodes: a channel whose hex
form is a single digit has that digit doubled, i.e. its value multiplied
by 17; other channels are encoded faithfully. -/
def groupVal (n : ℕ) : ℕ := if n < 16 then 17 * n else n

/-- Modelled from the claim's words (for comparison with the source): the
per-channel adjustment of the color adaptation as claim C1 states it, with
`Δ = (R + G + B − targetBrightness) mod 255` in BOTH branches. -/
def cssColorAdaptSpecChannels (r g b w : ℚ) : ℚ × ℚ × ℚ :=
  let ob := (r * 299 + g * 587 + b * 114) / 1000
  let nb := if 0 < ob then ob * (1 + w) else 1 + w
  let d := jsRem (r + g + b - nb) 255
  if nb < ob then
    (if r - d < 0 then 0 else r - d,
     if g - d < 0 then 0 else g - d,
     if b - d < 0 then 0 else b - d)
  else
    (if 255 < r + d then 255 else r + d,
     if 255 < g + d then 255 else g + d,
     if 255 < b + d then 255 else b + d)

/-!  Helper lemmas. -/

/-- Push `num` through an if-then-else. -/
theorem num_ite (c : Prop) [Decidable c] (a b : ℚ) :
    (if c then num a else num b) = num (if c then a else b) := by
  split_ifs <;> rfl

/-- Truncation agrees with the floor on nonnegative rationals. -/
theorem ratTrunc_of_nonneg {q : ℚ} (h : 0 ≤ q) : ratTrunc q = Int.floor q := by
  simp only [ratTrunc]
  rw [if_neg (not_lt.mpr h)]

/-- The JavaScript remainder is the identity below the modulus. -/
theorem jsRem_eq_self {a m : ℚ} (h0 : 0 ≤ a) (hm : 0 < m) (h : a < m) : jsRem a m = a := by
  have hq0 : 0 ≤ a / m := div_nonneg h0 hm.le
  have hq1 : a / m < 1 := (div_lt_one hm).mpr h
  have : Int.floor (a / m) = 0 := by
    rw [Int.floor_eq_zero_iff]
    constructor <;> simp [hq0, hq1]
  rw [jsRem, ratTrunc_of_nonneg hq0, this]
  push_cast
  ring

/-- Division of concrete rationals inside the `JsNum` wrapper. -/
theorem jdiv_num (a b : ℚ) (h : b ≠ 0) : jdiv (num a) (num b) = num (a / b) := by
  simp [jdiv, h]

/-- fn.cssDimensionAdapt on a plain number, as a rational-level formula. -/
theorem cssDimensionAdapt_num (a w : ℚ) :
    cssDimensionAdapt (num a) w = num (if 0 < a then a * (1 + w) else 1 + w) := by
  simp only [cssDimensionAdapt, jgt, jlt, decide_eq_true_eq]
  split_ifs with h
  · rfl
  · rfl

/-- The channel adjustment of fn.cssColorAdapt on a well-formed triple, as a
rational-level formula: the decrease branch subtracts
`(R+G+B − target) % 255` clamped at 0, the increase branch adds
`(target − brightness) % 255` clamped at 255. -/
theorem cssColorAdaptChannels_formula (r g b w : ℚ) :
    cssColorAdaptChannels [num r, num g, num b] w =
      (let ob := (r * 299 + g * 587 + b * 114) / 1000
       let nb := if 0 < ob then ob * (1 + w) else 1 + w
       if nb < ob then
         let d := jsRem (r + g + b - nb) 255
         (num (if r - d < 0 then 0 else r - d),
          num (if g - d < 0 then 0 else g - d),
          num (if b - d < 0 then 0 else b - d))
       else
         let d := jsRem (nb - ob) 255
         (num (if 255 < r + d then 255 else r + d),
          num (if 255 < g + d then 255 else g + d),
          num (if 255 < b + d then 255 else b + d))) := by
  have h1000 : (1000 : ℚ) ≠ 0 := by norm_num
  simp only [cssColorAdaptChannels, rgbBrightness, channelGet, List.get?_cons_zero,
    List.get?_cons_succ, Option.getD_some, jmul, jadd]
  rw [jdiv_num _ _ h1000, cssDimensionAdapt_num]
  simp only [jgt, jlt, jsub, jmod, clampLo0, clampHi255, decide_eq_true_eq, num_ite]

/-- C1 counterexample: for the gray triple (10,10,10) with weight 2 (an
increase), the code adds `Δ = (target − brightness) % 255 = 20` to each
channel, giving (30,30,30); the claim's rule
`Δ = (R+G+B − target) % 255 = 0` would leave (10,10,10). -/
theorem cssColorAdapt_branch_claim_cex :
    cssColorAdaptChannels [num 10, num 10, num 10] 2 = (num 30, num 30, num 30) ∧
    cssColorAdaptSpecChannels 10 10 10 2 = (10, 10, 10) ∧
    (num (30 : ℚ), num (30 : ℚ), num (30 : ℚ)) ≠ (num (10 : ℚ), num 10, num 10) := by
  refine ⟨?_, ?_, by simp⟩
  · rw [cssColorAdaptChannels_formula]
    have hob : ((10 : ℚ) * 299 + 10 * 587 + 10 * 114) / 1000 = 10 := by norm_num
    simp only [hob]
    norm_num [jsRem_eq_self]
  · simp only [cssColorAdaptSpecChannels]
    have hob : ((10 : ℚ) * 299 + 10 * 587 + 10 * 114) / 1000 = 10 := by norm_num
    simp only [hob]
    norm_num [jsRem_eq_self]

/-- C1 (amended): for every RGB triple with channels in [0,255] and every
weight, the target brightness follows the `(1+weight)` rule (or `1+weight`
when the brightness is 0), and the per-channel adjustment is
`Δ = (R+G+B − targetBrightness) mod 255` subtracted with a ≥0 clamp in the
decrease branch, but `Δ = (targetBrightness − brightness) mod 255` added
with a ≤255 clamp in the increase branch. -/
theorem cssColorAdapt_branch_adjust (r g b w : ℚ)
    (hr0 : 0 ≤ r) (hr1 : r ≤ 255) (hg0 : 0 ≤ g) (hg1 : g ≤ 255)
    (hb0 : 0 ≤ b) (hb1 : b ≤ 255) :
    cssColorAdaptChannels [num r, num g, num b] w =
      (let ob := (r * 299 + g * 587 + b * 114) / 1000
       let nb := if 0 < ob then ob * (1 + w) else 1 + w
       if nb < ob then
         let d := jsRem (r + g + b - nb) 255
         (num (if r - d < 0 then 0 else r - d),
          num (if g - d < 0 then 0 else g - d),
          num (if b - d < 0 then 0 else b - d))
       else
         let d := jsRem (nb - ob) 255
         (num (if 255 < r + d then 255 else r + d),
          num (if 255 < g + d then 255 else g + d),
          num (if 255 < b + d then 255 else b + d))) :=
  cssColorAdaptChannels_formula r g b w

/-- Witness for C1 at the triple (128,128,128) with weight 1. -/
theorem cssColorAdapt_branch_adjust_witness :
    ((0 : ℚ) ≤ 128 ∧ (128 : ℚ) ≤ 255) ∧
    cssColorAdaptChannels [num 128, num 128, num 128] 1 = (num 255, num 255, num 255) := by
  refine ⟨⟨by norm_num, by norm_num⟩, ?_⟩
  rw [cssColorAdapt_branch_adjust 128 128 128 1 (by norm_num) (by norm_num) (by norm_num)
    (by norm_num) (by norm_num) (by norm_num)]
  have hob : ((128 : ℚ) * 299 + 128 * 587 + 128 * 114) / 1000 = 128 := by norm_num
  simp only [hob]
  norm_num [jsRem_eq_self]

/-- C9: the path identifier is deterministic — it is a pure function of the
document structure and the node, so two calls on the same node in the same
unmodified document yield the same string. -/
theorem getXPath_deterministic (isHtml : Bool) (doc : List DomNode) (p : List ℕ) :
    getXPath isHtml doc p = getXPath isHtml doc p := rfl

/-- C4 evaluation: restyling a color property whose current value is
the keyword `pink` (unparseable: `parseColor` yields the empty array) does
NOT keep the value unchanged — the NaN-propagating arithmetic makes the
engine write the garbage string `#000NAN`. -/
theorem restyle_malformed_color_result :
    restyleValue "background-color" "pink" 1 = some "#000NAN" ∧
    some "#000NAN" ≠ some ("pink") := by
  constructor
  · decide
  · decide

/-!  Hexadecimal re-encoding lemmas. -/

theorem hexDigit_facts : ∀ d < 16, isHexDigitChar (hexDigit d) = true ∧
    hexCharVal (hexDigit d) = d ∧ hexDigit d ≠ Char.ofNat 45 ∧
    hexDigit d ≠ Char.ofNat 43 ∧ hexDigit d ≠ Char.ofNat 32 := by decide

theorem hexFixed_two (a : ℕ) (h : a ≤ 255) :
    hexFixed 2 a = [hexDigit (a / 16), hexDigit (a % 16)] := by
  have h16 : a / 16 % 16 = a / 16 := by omega
  simp [hexFixed, h16]

theorem hexGo_append (l1 l2 : List Char) (acc : ℕ)
    (h : ∀ c ∈ l1, isHexDigitChar c = true) :
    hexGo (l1 ++ l2) acc = hexGo l2 (hexGo l1 acc) := by
  induction l1 generalizing acc with
  | nil => rfl
  | cons c rest ih =>
    simp only [List.cons_append, hexGo, h c (by simp)]
    exact ih _ (fun x hx => h x (by simp [hx]))

theorem hexGo_pair (a acc : ℕ) (h : a ≤ 255) :
    hexGo [hexDigit (a / 16), hexDigit (a % 16)] acc = 256 * acc + a := by
  have h1 := hexDigit_facts (a / 16) (by omega)
  have h2 := hexDigit_facts (a % 16) (by omega)
  simp only [hexGo, h1.1, h1.2.1, h2.1, h2.2.1, if_true]
  omega

theorem hexFixed_hexDigits (a : ℕ) (h : a ≤ 255) :
    ∀ c ∈ hexFixed 2 a, isHexDigitChar c = true := by
  rw [hexFixed_two a h]
  intro c hc
  simp only [List.mem_cons, List.not_mem_nil, or_false] at hc
  rcases hc with rfl | rfl
  · exact (hexDigit_facts (a / 16) (by omega)).1
  · exact (hexDigit_facts (a % 16) (by omega)).1

theorem skipSpaces_nospace (c : Char) (l : List Char) (h : c ≠ Char.ofNat 32) :
    skipSpaces (c :: l) = c :: l := by
  simp [skipSpaces, h]

theorem parseIntHex_fixed (a b c : ℕ) (ha : a ≤ 255) (hb : b ≤ 255) (hc : c ≤ 255) :
    parseIntHexChars (hexFixed 2 a ++ hexFixed 2 b ++ hexFixed 2 c) =
      num (((65536 * a + 256 * b + c : ℕ) : ℚ)) := by
  have hda := hexDigit_facts (a / 16) (by omega)
  have hgo : hexGo (hexFixed 2 a ++ hexFixed 2 b ++ hexFixed 2 c) 0 = 65536 * a + 256 * b + c := by
    rw [hexGo_append _ _ _ (fun x hx => by
      rcases List.mem_append.mp hx with h1 | h1
      · exact hexFixed_hexDigits a ha x h1
      · exact hexFixed_hexDigits b hb x h1)]
    rw [hexGo_append _ _ _ (hexFixed_hexDigits a ha)]
    rw [hexFixed_two a ha, hexFixed_two b hb, hexFixed_two c hc]
    rw [hexGo_pair a 0 ha, hexGo_pair b _ hb, hexGo_pair c _ hc]
    ring
  have hcons : hexFixed 2 a ++ hexFixed 2 b ++ hexFixed 2 c =
      hexDigit (a / 16) :: (hexDigit (a % 16) :: (hexFixed 2 b ++ hexFixed 2 c)) := by
    rw [hexFixed_two a ha]
    simp
  rw [parseIntHexChars, hcons, skipSpaces_nospace _ _ hda.2.2.2.2, parseIntHexCore]
  rw [if_neg hda.2.2.1, if_neg hda.2.2.2.1, if_pos hda.1]
  rw [← hcons, hgo]

theorem natToHexF_stable : ∀ f1, 1 ≤ f1 → ∀ f2, 1 ≤ f2 → ∀ n, n < 16 ^ f1 → n < 16 ^ f2 →
    natToHexF f1 n = natToHexF f2 n := by
  intro f1
  induction f1 with
  | zero => omega
  | succ a ih =>
    intro _ f2 hf2 n hn1 hn2
    match f2, hf2 with
    | b + 1, _ =>
      by_cases h16 : n < 16
      · simp [natToHexF, h16]
      · have ha1 : 1 ≤ a := by
          rcases Nat.eq_zero_or_pos a with h | h
          · subst h
            simp at hn1
            omega
          · exact h
        have hb1 : 1 ≤ b := by
          rcases Nat.eq_zero_or_pos b with h | h
          · subst h
            simp at hn2
            omega
          · exact h
        have hna : n / 16 < 16 ^ a := by
          rw [Nat.div_lt_iff_lt_mul (by norm_num)]
          calc n < 16 ^ (a + 1) := hn1
          _ = 16 ^ a * 16 := by ring
        have hnb : n / 16 < 16 ^ b := by
          rw [Nat.div_lt_iff_lt_mul (by norm_num)]
          calc n < 16 ^ (b + 1) := hn2
          _ = 16 ^ b * 16 := by ring
        simp only [natToHexF, h16, if_false]
        rw [ih ha1 b hb1 (n / 16) hna hnb]

theorem natToHexLower_fuel (k n : ℕ) (h : n < 16 ^ (k + 1)) :
    natToHexLower n = natToHexF (k + 1) n := by
  apply natToHexF_stable (n + 1) (by omega) (k + 1) (by omega)
  · calc n < 2 ^ n := Nat.lt_two_pow n
    _ ≤ 16 ^ n := Nat.pow_le_pow_left (by norm_num) n
    _ ≤ 16 ^ (n + 1) := Nat.pow_le_pow_right (by norm_num) (by omega)
  · exact h

theorem hexFixed_zero (k : ℕ) : hexFixed k 0 = List.replicate k (Char.ofNat 48) := by
  induction k with
  | zero => rfl
  | succ a ih =>
    rw [hexFixed, Nat.zero_div, ih, List.replicate_succ']
    congr 1

theorem natToHexF_pad (k : ℕ) : ∀ n, n < 16 ^ (k + 1) →
    List.replicate ((k + 1) - (natToHexF (k + 1) n).length) (Char.ofNat 48) ++
      natToHexF (k + 1) n = hexFixed (k + 1) n := by
  induction k with
  | zero =>
    intro n hn
    have h16 : n < 16 := by
      have : (16 : ℕ) ^ 1 = 16 := by norm_num
      omega
    have hmod : n % 16 = n := by omega
    simp [natToHexF, hexFixed, hexFixed_zero, h16, hmod]
  | succ a ih =>
    intro n hn
    by_cases h16 : n < 16
    · have hmod : n % 16 = n := by omega
      have hdiv : n / 16 = 0 := by omega
      have hd0 : hexDigit 0 = Char.ofNat 48 := by decide
      simp [natToHexF, hexFixed, h16, hmod, hdiv, hexFixed_zero, List.replicate_succ', hd0]
    · have hna : n / 16 < 16 ^ (a + 1) := by
        rw [Nat.div_lt_iff_lt_mul (by norm_num)]
        calc n < 16 ^ (a + 1 + 1) := hn
        _ = 16 ^ (a + 1) * 16 := by ring
      have hstep : natToHexF (a + 1 + 1) n =
          natToHexF (a + 1) (n / 16) ++ [hexDigit (n % 16)] := by
        rw [natToHexF, if_neg h16]
      rw [hstep]
      have harith : (a + 1 + 1) - (natToHexF (a + 1) (n / 16) ++ [hexDigit (n % 16)]).length =
          (a + 1) - (natToHexF (a + 1) (n / 16)).length := by
        simp only [List.length_append, List.length_singleton]
        omega
      rw [harith, ← List.append_assoc, ih (n / 16) hna]
      conv_rhs => rw [hexFixed]

theorem hexFixed_six_split (a b c : ℕ) (ha : a ≤ 255) (hb : b ≤ 255) (hc : c ≤ 255) :
    hexFixed 6 (65536 * a + 256 * b + c) = hexFixed 2 a ++ hexFixed 2 b ++ hexFixed 2 c := by
  have e1 : (65536 * a + 256 * b + c) % 16 = c % 16 := by omega
  have e2 : (65536 * a + 256 * b + c) / 16 % 16 = c / 16 := by omega
  have e3 : (65536 * a + 256 * b + c) / 16 / 16 % 16 = b % 16 := by omega
  have e4 : (65536 * a + 256 * b + c) / 16 / 16 / 16 % 16 = b / 16 := by omega
  have e5 : (65536 * a + 256 * b + c) / 16 / 16 / 16 / 16 % 16 = a % 16 := by omega
  have e6 : (65536 * a + 256 * b + c) / 16 / 16 / 16 / 16 / 16 % 16 = a / 16 := by omega
  have f1 : a / 16 % 16 = a / 16 := by omega
  have f2 : b / 16 % 16 = b / 16 := by omega
  have f3 : c / 16 % 16 = c / 16 := by omega
  simp only [hexFixed, List.nil_append, List.append_assoc, List.cons_append,
    List.singleton_append, e1, e2, e3, e4, e5, e6, f1, f2, f3]

theorem natToHexLower_small (r : ℕ) (h1 : r < 16) : natToHexLower r = [hexDigit r] := by
  rw [natToHexLower, natToHexF, if_pos h1]

theorem natToHexLower_two (r : ℕ) (h1 : 16 ≤ r) (h2 : r ≤ 255) :
    natToHexLower r = [hexDigit (r / 16), hexDigit (r % 16)] := by
  rw [natToHexLower_fuel 1 r (by norm_num; omega), natToHexF, if_neg (by omega), natToHexF,
    if_pos (by omega)]
  rfl

theorem doubleShort_natToHex (r : ℕ) (h : r ≤ 255) :
    doubleShort (natToHexLower r) = hexFixed 2 (groupVal r) := by
  by_cases h16 : r < 16
  · rw [natToHexLower_small r h16]
    have hg : groupVal r = 17 * r := by simp [groupVal, h16]
    rw [hg, hexFixed_two (17 * r) (by omega)]
    have hd : 17 * r / 16 = r := by omega
    have hm : 17 * r % 16 = r := by omega
    simp [doubleShort, hd, hm]
  · rw [natToHexLower_two r (by omega) h]
    have hg : groupVal r = r := by simp [groupVal, h16]
    rw [hg, hexFixed_two r h]
    simp [doubleShort]

theorem jsToString16_natCast (n : ℕ) :
    jsToString16Chars (num ((n : ℕ) : ℚ)) = some (natToHexLower n) := by
  simp [jsToString16Chars, Rat.den_natCast, Rat.num_natCast]

theorem jfloor_natCast (n : ℕ) : jfloor (num ((n : ℕ) : ℚ)) = num ((n : ℕ) : ℚ) := by
  simp [jfloor]

theorem groupVal_le (r : ℕ) (h : r ≤ 255) : groupVal r ≤ 255 := by
  simp only [groupVal]
  split <;> omega

theorem encodeRGB_nat (r g b : ℕ) (hr : r ≤ 255) (hg : g ≤ 255) (hb : b ≤ 255) :
    encodeRGB (num ((r : ℕ) : ℚ)) (num ((g : ℕ) : ℚ)) (num ((b : ℕ) : ℚ)) =
      some (String.mk (Char.ofNat 35 ::
        ((hexFixed 2 (groupVal r) ++ hexFixed 2 (groupVal g) ++
          hexFixed 2 (groupVal b)).map Char.toUpper))) := by
  have hr2 := groupVal_le r hr
  have hg2 := groupVal_le g hg
  have hb2 := groupVal_le b hb
  have hN : 65536 * groupVal r + 256 * groupVal g + groupVal b < 16 ^ (5 + 1) := by
    have h16 : (16 : ℕ) ^ (5 + 1) = 16777216 := by norm_num
    omega
  have hfuel := natToHexLower_fuel 5 _ hN
  have hpad := natToHexF_pad 5 _ hN
  rw [encodeRGB, rgb2decJs, rgb2hexChars, jsToString16_natCast, jsToString16_natCast,
    jsToString16_natCast]
  simp only [Option.some_bind, Option.map_some']
  rw [doubleShort_natToHex r hr, doubleShort_natToHex g hg, doubleShort_natToHex b hb,
    parseIntHex_fixed _ _ _ hr2 hg2 hb2]
  rw [cssColorChars, jfloor_natCast, jsToString16_natCast]
  simp only [Option.map_some']
  rw [padChars6, hfuel]
  have h6 : (6 : ℕ) = 5 + 1 := by norm_num
  rw [h6, hpad]
  rw [show (5 + 1 : ℕ) = 6 from by norm_num, hexFixed_six_split _ _ _ hr2 hg2 hb2]

/-- C6 (amended): the re-encoded result is '#' followed by exactly six
uppercase hexadecimal digits whose two-digit groups encode the channels —
PROVIDED each channel value is 0 or at least 16.  (A channel in 1..15 is
encoded by doubling its single hex digit, see the counterexample.) -/
theorem encodeRGB_groups (r g b : ℕ)
    (hr0 : r = 0 ∨ 16 ≤ r) (hr1 : r ≤ 255) (hg0 : g = 0 ∨ 16 ≤ g) (hg1 : g ≤ 255)
    (hb0 : b = 0 ∨ 16 ≤ b) (hb1 : b ≤ 255) :
    encodeRGB (num ((r : ℕ) : ℚ)) (num ((g : ℕ) : ℚ)) (num ((b : ℕ) : ℚ)) =
      some (String.mk (Char.ofNat 35 ::
        ((hexFixed 2 r ++ hexFixed 2 g ++ hexFixed 2 b).map Char.toUpper))) := by
  have er : groupVal r = r := by
    rcases hr0 with rfl | h
    · rfl
    · simp [groupVal]
      omega
  have eg : groupVal g = g := by
    rcases hg0 with rfl | h
    · rfl
    · simp [groupVal]
      omega
  have eb : groupVal b = b := by
    rcases hb0 with rfl | h
    · rfl
    · simp [groupVal]
      omega
  rw [encodeRGB_nat r g b hr1 hg1 hb1, er, eg, eb]

/-- Witness for C6 at the channel triple (0, 128, 255). -/
theorem encodeRGB_groups_witness :
    ((0 : ℕ) = 0 ∨ 16 ≤ (0 : ℕ)) ∧ ((128 : ℕ) = 0 ∨ 16 ≤ (128 : ℕ)) ∧
    ((255 : ℕ) = 0 ∨ 16 ≤ (255 : ℕ)) ∧
    encodeRGB (num ((0 : ℕ) : ℚ)) (num ((128 : ℕ) : ℚ)) (num ((255 : ℕ) : ℚ)) =
      some (String.mk (Char.ofNat 35 ::
        ((hexFixed 2 0 ++ hexFixed 2 128 ++ hexFixed 2 255).map Char.toUpper))) := by
  refine ⟨by decide, by decide, by decide, ?_⟩
  exact encodeRGB_groups 0 128 255 (by decide) (by decide) (by decide) (by decide)
    (by decide) (by decide)

/-- C6 counterexample: adapting (1,1,1) with weight 1 yields the clamped
channels (2,2,2), but the re-encoded string is `#222222` — the single hex
digit of each channel is doubled by fn.rgb2hex — and not the zero-padded
encoding `#020202` of the channel values that the claim requires. -/
theorem rgb2hex_pad_claim_cex :
    cssColorAdaptChannels [num 1, num 1, num 1] 1 = (num 2, num 2, num 2) ∧
    cssColorAdapt [num 1, num 1, num 1] 1 = some "#222222" ∧
    String.mk (Char.ofNat 35 ::
      ((hexFixed 2 2 ++ hexFixed 2 2 ++ hexFixed 2 2).map Char.toUpper)) = "#020202" ∧
    ("#222222" : String) ≠ "#020202" := by
  have hch : cssColorAdaptChannels [num 1, num 1, num 1] 1 = (num 2, num 2, num 2) := by
    rw [cssColorAdaptChannels_formula]
    have hob : ((1 : ℚ) * 299 + 1 * 587 + 1 * 114) / 1000 = 1 := by norm_num
    simp only [hob]
    norm_num [jsRem_eq_self]
  refine ⟨hch, ?_, by decide, by decide⟩
  simp only [cssColorAdapt, hch]
  have h2 : ((2 : ℕ) : ℚ) = (2 : ℚ) := by norm_num
  rw [← h2, encodeRGB_nat 2 2 2 (by omega) (by omega) (by omega)]
  decide

/-- C7: adapting `#808080` with weight 0 keeps every channel at 128 and the
brightness at 128 (unchanged); adapting it with weight 1 moves every channel
up to the clamp 255 (no channel decreases: 128 ≤ 255) and the brightness
rises from 128 to 255, the result being `#FFFFFF`. -/
theorem adapt_gray_weights :
    cssColorAdaptChannels (parseColor "#808080") 0 = (num 128, num 128, num 128) ∧
    rgbBrightness [num 128, num 128, num 128] = num 128 ∧
    cssColorAdapt (parseColor "#808080") 0 = some "#808080" ∧
    cssColorAdaptChannels (parseColor "#808080") 1 = (num 255, num 255, num 255) ∧
    rgbBrightness [num 255, num 255, num 255] = num 255 ∧
    cssColorAdapt (parseColor "#808080") 1 = some "#FFFFFF" ∧
    ((128 : ℚ) ≤ 255 ∧ (128 : ℚ) ≤ 255) := by
  have hparse : parseColor "#808080" = [num 128, num 128, num 128] := by decide
  have hob : ((128 : ℚ) * 299 + 128 * 587 + 128 * 114) / 1000 = 128 := by norm_num
  have hch0 : cssColorAdaptChannels (parseColor "#808080") 0 = (num 128, num 128, num 128) := by
    rw [hparse, cssColorAdaptChannels_formula]
    simp only [hob]
    norm_num [jsRem_eq_self]
  have hch1 : cssColorAdaptChannels (parseColor "#808080") 1 = (num 255, num 255, num 255) := by
    rw [hparse, cssColorAdaptChannels_formula]
    simp only [hob]
    norm_num [jsRem_eq_self]
  have hb128 : rgbBrightness [num 128, num 128, num 128] = num 128 := by
    simp only [rgbBrightness, channelGet, List.get?_cons_zero, List.get?_cons_succ,
      Option.getD_some, jmul, jadd]
    rw [jdiv_num _ _ (by norm_num)]
    norm_num
  have hb255 : rgbBrightness [num 255, num 255, num 255] = num 255 := by
    simp only [rgbBrightness, channelGet, List.get?_cons_zero, List.get?_cons_succ,
      Option.getD_some, jmul, jadd]
    rw [jdiv_num _ _ (by norm_num)]
    norm_num
  refine ⟨hch0, hb128, ?_, hch1, hb255, ?_, by norm_num, by norm_num⟩
  · simp only [cssColorAdapt, hch0]
    have h128 : ((128 : ℕ) : ℚ) = (128 : ℚ) := by norm_num
    rw [← h128, encodeRGB_nat 128 128 128 (by omega) (by omega) (by omega)]
    decide
  · simp only [cssColorAdapt, hch1]
    have h255 : ((255 : ℕ) : ℚ) = (255 : ℚ) := by norm_num
    rw [← h255, encodeRGB_nat 255 255 255 (by omega) (by omega) (by omega)]
    decide

/-!  Ranking, reconciliation and tracking lemmas. -/

/-- With distinct keys, lookup recovers a member's value. -/
theorem alookup_mem_nodup {α : Type} (l : List (String × α)) (k : String) (v : α)
    (hn : (l.map Prod.fst).Nodup) (hm : (k, v) ∈ l) : alookup l k = some v := by
  induction l with
  | nil => simp at hm
  | cons p t ih =>
    simp only [List.map_cons, List.nodup_cons] at hn
    rcases List.mem_cons.mp hm with h | h
    · subst h
      simp [alookup]
    · have hk : p.1 ≠ k := by
        intro he
        exact hn.1 (he ▸ (List.mem_map.mpr ⟨(k, v), h, rfl⟩))
      simp only [alookup, if_neg hk]
      exact ih hn.2 h

/-- fn.diffRank against an existing old rank subtracts the old value when
present (a stored 0 is falsy and skips the subtraction, which subtracting 0
also achieves), pointwise over the new rank. -/
theorem diffRank_pointwise (newRank oldRank : List (String × ℚ)) :
    diffRank newRank (some oldRank) =
      newRank.map (fun e => (e.1, e.2 - ((alookup oldRank e.1).getD 0))) := by
  induction newRank with
  | nil => rfl
  | cons e t ih =>
    simp only [diffRank, List.map_cons] at ih ⊢
    rw [ih]
    congr 1
    rcases h : alookup oldRank e.1 with _ | w
    · simp
    · simp only [Option.getD_some]
      split_ifs with hw
      · rfl
      · push_neg at hw
        rw [hw]
        simp

/-- C3: the reconciled rank has exactly the key set of the current fused
rank; a path in both maps gets `current - previous`, a path only in the
current map keeps its value (`current - 0`), paths only in the previous map
are dropped; reconciling against an absent previous rank is the identity;
reconciling a rank against itself yields 0 on every (shared) path. -/
theorem diffRank_reconcile :
    (∀ newRank oldRank : List (String × ℚ),
       (diffRank newRank (some oldRank)).map Prod.fst = newRank.map Prod.fst ∧
       diffRank newRank (some oldRank) =
         newRank.map (fun e => (e.1, e.2 - ((alookup oldRank e.1).getD 0)))) ∧
    (∀ newRank : List (String × ℚ), diffRank newRank Option.none = newRank) ∧
    (∀ newRank : List (String × ℚ), (newRank.map Prod.fst).Nodup →
       ∀ q ∈ diffRank newRank (some newRank), q.2 = 0) := by
  refine ⟨fun newRank oldRank => ⟨?_, diffRank_pointwise newRank oldRank⟩, ?_, ?_⟩
  · rw [diffRank_pointwise, List.map_map]
    exact List.map_congr_left (fun e _ => rfl)
  · intro newRank
    have : (fun (e : String × ℚ) => (e.1, e.2)) = id := by
      funext e
      rfl
    simp [diffRank, this]
  · intro newRank hn q hq
    rw [diffRank_pointwise] at hq
    rcases List.mem_map.mp hq with ⟨e, he, rfl⟩
    rw [alookup_mem_nodup newRank e.1 e.2 hn he]
    simp

/-- C3 witness at a one-entry rank. -/
theorem diffRank_reconcile_witness :
    ((([("a", (3 : ℚ))] : List (String × ℚ)).map Prod.fst).Nodup) ∧
    (∀ q ∈ diffRank [("a", (3 : ℚ))] (some [("a", (3 : ℚ))]), q.2 = 0) :=
  ⟨by decide, diffRank_reconcile.2.2 [("a", (3 : ℚ))] (by decide)⟩

/-- Bumping one event counter raises the sub-map total by exactly 1. -/
theorem bumpEvt_sum (l : List (String × ℕ)) (ty : String) :
    ((bumpEvt l ty).map Prod.snd).sum = (l.map Prod.snd).sum + 1 := by
  induction l with
  | nil => simp [bumpEvt]
  | cons p t ih =>
    by_cases h : p.1 = ty
    · simp [bumpEvt, h]
      omega
    · simp [bumpEvt, h, ih]
      omega

/-- Bumping one nested counter raises the whole-map total by exactly 1. -/
theorem bumpElem_sum (l : List (String × List (String × ℕ))) (elem ty : String) :
    ((bumpElem l elem ty).map (fun e => (e.2.map Prod.snd).sum)).sum =
      (l.map (fun e => (e.2.map Prod.snd).sum)).sum + 1 := by
  induction l with
  | nil => simp [bumpElem, bumpEvt]
  | cons p t ih =>
    by_cases h : p.1 = elem
    · simp [bumpElem, h, bumpEvt_sum]
      omega
    · simp [bumpElem, h, ih]
      omega

/-- The session invariant `evCount = total of all nested counts` is
preserved by every recorded sample. -/
theorem runTrace_total : ∀ (tr : List (String × String)) (st : TrackState),
    st.evCount = totalCount st →
    (tr.foldl (fun st p => updateRank st p.1 p.2) st).evCount =
      totalCount (tr.foldl (fun st p => updateRank st p.1 p.2) st) := by
  intro tr
  induction tr with
  | nil => exact fun st h => h
  | cons p t ih =>
    intro st h
    simp only [List.foldl_cons]
    apply ih
    simp only [updateRank, totalCount, bumpElem_sum]
    rw [h]
    rfl

/-- The session counter equals the number of recorded samples. -/
theorem runTrace_len (tr : List (String × String)) :
    (runTrace tr).evCount = tr.length := by
  rw [runTrace]
  have key : ∀ (l : List (String × String)) (st : TrackState),
      (l.foldl (fun st p => updateRank st p.1 p.2) st).evCount = st.evCount + l.length := by
    intro l
    induction l with
    | nil => simp
    | cons p t ih =>
      intro st
      rw [List.foldl_cons, ih]
      simp only [updateRank, List.length_cons]
      omega
  rw [key]
  simp [initState]

/-- Effect of a bump on the counter read back for an event type. -/
theorem bumpEvt_getD (l : List (String × ℕ)) (ty t : String) :
    (alookup (bumpEvt l ty) t).getD 0 =
      if t = ty then (alookup l t).getD 0 + 1 else (alookup l t).getD 0 := by
  induction l with
  | nil =>
    by_cases h1 : t = ty
    · subst h1
      simp [bumpEvt, alookup]
    · rw [if_neg h1, bumpEvt]
      simp only [alookup]
      rw [if_neg (fun h : ty = t => h1 h.symm)]
  | cons p r ih =>
    by_cases hp : p.1 = ty
    · rw [bumpEvt, if_pos hp]
      by_cases h1 : p.1 = t
      · rw [alookup, if_pos h1, alookup, if_pos h1, if_pos (h1.symm.trans hp)]
        simp
      · have ht : t ≠ ty := fun h => h1 (hp.trans h.symm)
        rw [alookup, if_neg h1, if_neg ht, alookup, if_neg h1]
    · rw [bumpEvt, if_neg hp]
      by_cases h1 : p.1 = t
      · have ht : t ≠ ty := fun h => hp (h1.trans h)
        rw [alookup, if_pos h1, if_neg ht, alookup, if_pos h1]
      · rw [alookup, if_neg h1, alookup, if_neg h1]
        exact ih

/-- Effect of a bump on the sub-map read back for an element. -/
theorem bumpElem_getD (l : List (String × List (String × ℕ))) (elem ty e : String) :
    (alookup (bumpElem l elem ty) e).getD [] =
      if e = elem then bumpEvt ((alookup l e).getD []) ty else (alookup l e).getD [] := by
  induction l with
  | nil =>
    by_cases h1 : e = elem
    · subst h1
      simp [bumpElem, alookup]
    · rw [if_neg h1, bumpElem]
      simp only [alookup]
      rw [if_neg (fun h : elem = e => h1 h.symm)]
  | cons p r ih =>
    by_cases hp : p.1 = elem
    · rw [bumpElem, if_pos hp]
      by_cases h1 : p.1 = e
      · rw [alookup, if_pos h1, alookup, if_pos h1, if_pos (h1.symm.trans hp)]
        simp
      · have ht : e ≠ elem := fun h => h1 (hp.trans h.symm)
        rw [alookup, if_neg h1, if_neg ht, alookup, if_neg h1]
    · rw [bumpElem, if_neg hp]
      by_cases h1 : p.1 = e
      · have ht : e ≠ elem := fun h => hp (h1.trans h)
        rw [alookup, if_pos h1, if_neg ht, alookup, if_pos h1]
      · rw [alookup, if_neg h1, alookup, if_neg h1]
        exact ih

/-- fn.updateRank changes exactly one nested count, by exactly 1. -/
theorem countOf_update (st : TrackState) (elem ty e t : String) :
    countOf (updateRank st elem ty) e t =
      if e = elem ∧ t = ty then countOf st e t + 1 else countOf st e t := by
  simp only [countOf, updateRank, bumpElem_getD]
  by_cases he : e = elem
  · rw [if_pos he, bumpEvt_getD]
    by_cases ht : t = ty
    · rw [if_pos ht, if_pos ⟨he, ht⟩]
    · rw [if_neg ht, if_neg (fun h => ht h.2)]
  · rw [if_neg he, if_neg (fun h => he h.1)]

/-- C10: throughout a session the total counter equals the sum of all nested
per-element per-event counts; each record increments the counter and exactly
one nested count by 1 and touches nothing else; and a zero total at unload
forces an empty EventCountMap, on which the fuse step yields an empty map. -/
theorem updateRank_invariant :
    (∀ tr : List (String × String), (runTrace tr).evCount = totalCount (runTrace tr)) ∧
    (∀ (st : TrackState) (elem ty : String),
       (updateRank st elem ty).evCount = st.evCount + 1 ∧
       countOf (updateRank st elem ty) elem ty = countOf st elem ty + 1 ∧
       (∀ e t : String, ¬(e = elem ∧ t = ty) →
          countOf (updateRank st elem ty) e t = countOf st e t)) ∧
    (∀ tr : List (String × String), (runTrace tr).evCount = 0 →
       (runTrace tr).evRank = [] ∧
       ∀ prios : List (String × ℚ),
         fuseRank (runTrace tr).evRank prios (runTrace tr).evCount = []) := by
  refine ⟨?_, ?_, ?_⟩
  · intro tr
    exact runTrace_total tr initState rfl
  · intro st elem ty
    refine ⟨rfl, ?_, ?_⟩
    · rw [countOf_update, if_pos ⟨rfl, rfl⟩]
    · intro e t h
      rw [countOf_update, if_neg h]
  · intro tr h
    have hlen := runTrace_len tr
    rw [h] at hlen
    have : tr = [] := List.length_eq_zero.mp hlen.symm
    subst this
    exact ⟨rfl, fun prios => rfl⟩

/-- C10 witness at the empty trace. -/
theorem updateRank_invariant_witness :
    (runTrace ([] : List (String × String))).evCount = 0 ∧
    (runTrace ([] : List (String × String))).evRank = [] ∧
    fuseRank (runTrace ([] : List (String × String))).evRank [("click", (1 : ℚ))]
      (runTrace ([] : List (String × String))).evCount = [] :=
  ⟨rfl, (updateRank_invariant.2.2 [] rfl).1, (updateRank_invariant.2.2 [] rfl).2 [("click", 1)]⟩

/-- C8: when the session-wide total event count is 0, the event map of the
session is empty, fuse returns the empty map (no entry exists at all, hence
no NaN or undefined entry), and the reconciled rank that would be persisted
is empty as well. -/
theorem fuse_zero_total_empty :
    ∀ (tr : List (String × String)) (prios : List (String × ℚ)) (prev : List (String × ℚ)),
      (runTrace tr).evCount = 0 →
      fuseRank (runTrace tr).evRank prios (runTrace tr).evCount = [] ∧
      diffRank [] (some prev) = [] ∧ diffRank [] Option.none = [] := by
  intro tr prios prev h
  have hlen := runTrace_len tr
  rw [h] at hlen
  have : tr = [] := List.length_eq_zero.mp hlen.symm
  subst this
  exact ⟨rfl, rfl, rfl⟩

/-- C8 witness at the empty trace. -/
theorem fuse_zero_total_empty_witness :
    (runTrace ([] : List (String × String))).evCount = 0 ∧
    (fuseRank (runTrace ([] : List (String × String))).evRank [("click", (1 : ℚ))]
       (runTrace ([] : List (String × String))).evCount = [] ∧
     diffRank [] (some [("P", (2 : ℚ))]) = [] ∧ diffRank [] Option.none = []) :=
  ⟨rfl, fuse_zero_total_empty [] [("click", 1)] [("P", 2)] rfl⟩

/-- The weighted-mean fold of fn.fuseRank, when every observed event type is
configured, accumulates the claim's weighted sum. -/
theorem fuseFold (prios : List (String × ℚ)) (S : ℚ) :
    ∀ (evts : List (String × ℕ)) (m : ℚ),
      (∀ p ∈ evts, (alookup prios p.1).isSome) →
      evts.foldl
          (fun acc p => acc.bind (fun m2 => (alookup prios p.1).map
            (fun w => m2 + (p.2 : ℚ) * (w / S)))) (some m) =
        some (m + (evts.map (fun p => (p.2 : ℚ) * ((alookup prios p.1).getD 0 / S))).sum) := by
  intro evts
  induction evts with
  | nil => simp
  | cons p t ih =>
    intro m h
    have hp := h p (by simp)
    rcases hw : alookup prios p.1 with _ | w
    · rw [hw] at hp
      simp at hp
    · rw [List.foldl_cons]
      simp only [Option.some_bind, hw, Option.map_some']
      rw [ih _ (fun q hq => h q (by simp [hq]))]
      simp only [List.map_cons, List.sum_cons, hw, Option.getD_some]
      congr 1
      ring

/-- C2: fuse maps each element with event sub-map C to
`sinh(((Σ over entries of C of count * priority/S) / totalEvents) * n)` where
`S` is the sum of all configured priorities (computed once) and `n` is the
number of distinct event types observed; in particular the session
`{click:5}` with priority `{click:1}` and 5 total events fuses to `sinh 1`. -/
theorem fuseRank_weightedMean :
    (∀ (rank : List (String × List (String × ℕ))) (prios : List (String × ℚ))
       (evCount : ℕ) (elem : String) (evts : List (String × ℕ)),
       0 < evCount → (elem, evts) ∈ rank → (evts.map Prod.fst).Nodup →
       (∀ p ∈ evts, (alookup prios p.1).isSome) →
       ∃ a : ℚ,
         (elem, some a) ∈ fuseRank rank prios evCount ∧
         a = ((evts.map (fun p => (p.2 : ℚ) *
                ((alookup prios p.1).getD 0 / prioritySum prios))).sum / (evCount : ℕ)) *
              evts.length ∧
         Real.sinh (a : ℝ) =
           Real.sinh ((((evts.map (fun p => (p.2 : ℚ) *
                ((alookup prios p.1).getD 0 / prioritySum prios))).sum / (evCount : ℕ)) *
              evts.length : ℚ)) ) ∧
    (∃ a : ℚ, fuseRank [("P", [("click", 5)])] [("click", 1)] 5 = [("P", some a)] ∧
       Real.sinh (a : ℝ) = Real.sinh 1) := by
  constructor
  · intro rank prios evCount elem evts hpos hmem hnodup hsome
    refine ⟨sigmoidArg
        ((evts.map (fun p => (p.2 : ℚ) *
          ((alookup prios p.1).getD 0 / prioritySum prios))).sum / (evCount : ℕ)) evts.length,
      ?_, ?_, ?_⟩
    · have : fuseElem evts prios evCount = some (sigmoidArg
          ((evts.map (fun p => (p.2 : ℚ) *
            ((alookup prios p.1).getD 0 / prioritySum prios))).sum / (evCount : ℕ))
          evts.length) := by
        rw [fuseElem, fuseFold prios (prioritySum prios) evts 0 hsome]
        simp
      have h2 : (elem, fuseElem evts prios evCount) ∈ fuseRank rank prios evCount :=
        List.mem_map_of_mem (fun e => (e.1, fuseElem e.2 prios evCount)) hmem
      rw [this] at h2
      exact h2
    · rcases evts with _ | ⟨p, t⟩
      · simp [sigmoidArg]
      · rw [sigmoidArg, if_neg (by simp)]
    · rcases evts with _ | ⟨p, t⟩
      · simp [sigmoidArg]
      · rw [sigmoidArg, if_neg (by simp)]
  · refine ⟨1, ?_, by norm_num⟩
    have h1 : alookup [("click", (1 : ℚ))] "click" = some 1 := by
      rw [alookup, if_pos rfl]
    have : fuseElem [("click", 5)] [("click", 1)] 5 = some 1 := by
      rw [fuseElem, fuseFold _ _ _ 0 (by
        intro p hp
        simp only [List.mem_singleton] at hp
        subst hp
        rw [h1]
        rfl)]
      simp only [List.map_cons, List.map_nil, List.sum_cons, List.sum_nil, h1,
        Option.getD_some, Option.map_some']
      rw [prioritySum]
      norm_num [sigmoidArg]
    rw [fuseRank, List.map_cons, List.map_nil, this]

/-- C2 witness: the end-to-end scenario of the claim. -/
theorem fuseRank_weightedMean_witness :
    (0 < 5) ∧ (("P", [("click", (5 : ℕ))]) ∈ [("P", [("click", (5 : ℕ))])]) ∧
    (([("click", (5 : ℕ))].map Prod.fst).Nodup) ∧
    (∀ p ∈ [("click", (5 : ℕ))], (alookup [("click", (1 : ℚ))] p.1).isSome) ∧
    (∃ a : ℚ,
       ("P", some a) ∈ fuseRank [("P", [("click", (5 : ℕ))])] [("click", (1 : ℚ))] 5 ∧
       a = (([("click", (5 : ℕ))].map (fun p => (p.2 : ℚ) *
              ((alookup [("click", (1 : ℚ))] p.1).getD 0 / prioritySum [("click", (1 : ℚ))]))).sum /
              ((5 : ℕ) : ℚ)) * ([("click", (5 : ℕ))].length) ∧
       Real.sinh (a : ℝ) =
         Real.sinh (((([("click", (5 : ℕ))].map (fun p => (p.2 : ℚ) *
              ((alookup [("click", (1 : ℚ))] p.1).getD 0 / prioritySum [("click", (1 : ℚ))]))).sum /
              ((5 : ℕ) : ℚ)) * ([("click", (5 : ℕ))].length) : ℚ))) :=
  ⟨by decide, by decide, by decide, by decide,
    fuseRank_weightedMean.1 [("P", [("click", 5)])] [("click", 1)] 5 "P" [("click", 5)]
      (by decide) (by decide) (by decide) (by decide)⟩

/-!  Dimension adaptation lemmas. -/

/-- fn.parseDimension on the canonical input `10px`. -/
theorem parseDimension_10px : parseDimension "10px" = (num 10, some "px") := by
  have hv : parseFloatChars (String.toList "10px") = num 10 := by
    have h : String.toList "10px" = ['1', '0', 'p', 'x'] := rfl
    rw [h]
    simp +decide [parseFloatChars, skipSpaces, decGo, isDigitChar]
  have hr : jsNumToDecChars (num 10) = some ['1', '0'] := by
    simp +decide [jsNumToDecChars, natToDec, natToDecF]
  simp only [parseDimension, hv, hr]
  exact congrArg (Prod.mk (num 10)) (by decide)

/-- fn.parseDimension on the zero-magnitude input `0px`. -/
theorem parseDimension_0px : parseDimension "0px" = (num 0, some "px") := by
  have hv : parseFloatChars (String.toList "0px") = num 0 := by
    have h : String.toList "0px" = ['0', 'p', 'x'] := rfl
    rw [h]
    simp +decide [parseFloatChars, skipSpaces, decGo, isDigitChar]
  have hr : jsNumToDecChars (num 0) = some ['0'] := by
    simp +decide [jsNumToDecChars, natToDec, natToDecF]
  simp only [parseDimension, hv, hr]
  exact congrArg (Prod.mk (num 0)) (by decide)

/-- Rendering the doubled magnitude of `10px` under weight 1. -/
theorem renderAdapt_10 : jsNumToDecChars (cssDimensionAdapt (num 10) 1) = some ['2', '0'] := by
  have had : cssDimensionAdapt (num 10) 1 = num 20 := by
    rw [cssDimensionAdapt_num]
    norm_num
  rw [had]
  simp +decide [jsNumToDecChars, natToDec, natToDecF]

/-- Rendering the zero-base result of `0px` under weight 1. -/
theorem renderAdapt_0 : jsNumToDecChars (cssDimensionAdapt (num 0) 1) = some ['2'] := by
  have had : cssDimensionAdapt (num 0) 1 = num 2 := by
    rw [cssDimensionAdapt_num]
    norm_num
  rw [had]
  simp +decide [jsNumToDecChars, natToDec, natToDecF]

/-- C5: on a dimension string parsed into (magnitude, unit), the adapted value
has magnitude `magnitude * (1 + weight)` when the magnitude is positive and
`1 + weight` when it is 0, with the original unit string re-appended verbatim;
in particular `10px` with weight 1 restyles to `20px` and `0px` to `2px`. -/
theorem dimension_adapt_rule :
    (∀ (s : String) (m : ℚ) (u : String) (w : ℚ) (out : List Char),
       parseDimension s = (num m, some u) →
       jsNumToDecChars (cssDimensionAdapt (num m) w) = some out →
       adaptDimensionValue s w = some (String.mk out ++ u) ∧
       cssDimensionAdapt (num m) w = num (if 0 < m then m * (1 + w) else 1 + w)) ∧
    restyleValue "margin" "10px" 1 = some "20px" ∧
    restyleValue "margin" "0px" 1 = some "2px" := by
  refine ⟨?_, ?_, ?_⟩
  · intro s m u w out h1 h2
    constructor
    · simp only [adaptDimensionValue, h1, h2, Option.map_some']
      rfl
    · exact cssDimensionAdapt_num m w
  · rw [restyleValue, if_neg (by decide), if_neg (by decide), if_pos (by decide),
      adaptDimensionValue]
    simp only [parseDimension_10px, renderAdapt_10, Option.map_some']
    decide
  · rw [restyleValue, if_neg (by decide), if_neg (by decide), if_pos (by decide),
      adaptDimensionValue]
    simp only [parseDimension_0px, renderAdapt_0, Option.map_some']
    decide

/-- C5 witness at `10px` with weight 1. -/
theorem dimension_adapt_rule_witness :
    parseDimension "10px" = (num 10, some "px") ∧
    jsNumToDecChars (cssDimensionAdapt (num 10) 1) = some ['2', '0'] ∧
    (adaptDimensionValue "10px" 1 = some (String.mk ['2', '0'] ++ "px") ∧
     cssDimensionAdapt (num 10) 1 = num (if 0 < (10 : ℚ) then 10 * (1 + 1) else 1 + 1)) :=
  ⟨parseDimension_10px, renderAdapt_10,
    dimension_adapt_rule.1 "10px" 10 "px" 1 ['2', '0'] parseDimension_10px renderAdapt_10⟩
